import Mathlib

/-!
Shallow embedding of the core of the `boldsoftware/treesitter` repository:
the query predicate filter and query validation of `treesitter.go`, the
parse-outcome conversion of `Parser.convertTSTree`, the edit-descriptor
conversion of `EditInput.c`, and the markdown multi-tree composer of the
`markdown` package (`MarkdownTree`, `ParseCtx`).

Machine integers that the C boundary truncates to 32 bits are modelled as
`Nat` with an explicit `% 2^32`; Go `nil` results and Go errors are
modelled with `Option` and `Except`.
-/

namespace TreeSitter

/-- A row/column position, embedding the Go struct `Point` of `treesitter.go`. -/
structure Point where
  row : Nat
  column : Nat
  deriving DecidableEq

/-- A source interval, embedding the Go struct `Range` of `treesitter.go`
(start point, end point, start byte, end byte). -/
structure Range where
  startPoint : Point
  endPoint : Point
  startByte : Nat
  endByte : Nat
  deriving DecidableEq

/-- Embeds the covering-range computation of `ParseCtx` in the `markdown`
package: starting from the anchor node's full range `r`, for every named
child the loop appends the range from the running cursor to the *child's
end* (`EndPoint`/`EndByte` of the child), advances the cursor to the
child's end, and finally appends the remaining range.  This is a direct
transcription of the loop body

  `ranges = append(ranges, Range{StartPoint: r.StartPoint, StartByte: r.StartByte,`
  `                              EndPoint: childRange.EndPoint, EndByte: childRange.EndByte})`
  `r.StartPoint = childRange.EndPoint; r.StartByte = childRange.EndByte`

followed by `ranges = append(ranges, r)`. -/
def coveringRanges (r : Range) : List Range → List Range
  | [] => [r]
  | child :: rest =>
      { startPoint := r.startPoint, startByte := r.startByte,
        endPoint := child.endPoint, endByte := child.endByte } ::
      coveringRanges { r with startPoint := child.endPoint, startByte := child.endByte } rest

/-- `childChain lo hi cs` says the ranges `cs` lie inside `[lo, hi)` in
non-decreasing, non-overlapping byte order: each range starts no earlier
than the running lower bound, is non-empty-or-empty but ordered
(`start ≤ end`), ends by `hi`, and the next range starts after it ends. -/
def childChain (lo hi : Nat) : List Range → Bool
  | [] => true
  | c :: rest =>
      decide (lo ≤ c.startByte) && decide (c.startByte ≤ c.endByte) &&
      decide (c.endByte ≤ hi) && childChain c.endByte hi rest

/-- The engine contract on a range set (`Parser.SetIncludedRanges`):
each range is ordered and consecutive ranges do not overlap and appear in
non-decreasing byte order. -/
def rangeSetOrdered : List Range → Bool
  | [] => true
  | [r] => decide (r.startByte ≤ r.endByte)
  | r :: s :: rest =>
      decide (r.startByte ≤ r.endByte) && decide (r.endByte ≤ s.startByte) &&
      rangeSetOrdered (s :: rest)

/-- A byte offset `b` is covered by one of the ranges of `rs`. -/
def covers (rs : List Range) (b : Nat) : Prop :=
  ∃ r ∈ rs, r.startByte ≤ b ∧ b < r.endByte

instance (rs : List Range) (b : Nat) : Decidable (covers rs b) := by
  unfold covers; infer_instance

/-- The engine edit descriptor, embedding the Go struct `EditInput`. -/
structure EditInput where
  startIndex : Nat
  oldEndIndex : Nat
  newEndIndex : Nat
  startPoint : Point
  oldEndPoint : Point
  newEndPoint : Point
  deriving DecidableEq

/-- A C `TSPoint` (fields truncated to `uint32_t`). -/
structure TSPoint where
  row : Nat
  column : Nat
  deriving DecidableEq

/-- The C struct `TSInputEdit` handed to `ts_tree_edit`. -/
structure TSInputEdit where
  start_byte : Nat
  old_end_byte : Nat
  new_end_byte : Nat
  start_point : TSPoint
  old_end_point : TSPoint
  new_end_point : TSPoint
  deriving DecidableEq

/-- Conversion to `uint32_t` at the C boundary. -/
def u32 (n : Nat) : Nat := n % 2 ^ 32

/-- Embeds the method `EditInput.c` of `treesitter.go`: builds the
`TSInputEdit` passed to the engine.  Note that in the source the
`new_end_point` field is populated from `i.OldEndPoint` (both its row and
its column), not from `i.NewEndPoint`; this definition transcribes that
faithfully. -/
def EditInput.c (i : EditInput) : TSInputEdit :=
  { start_byte := u32 i.startIndex
    old_end_byte := u32 i.oldEndIndex
    new_end_byte := u32 i.newEndIndex
    start_point := { row := u32 i.startPoint.row, column := u32 i.startPoint.column }
    old_end_point := { row := u32 i.oldEndPoint.row, column := u32 i.oldEndPoint.column }
    new_end_point := { row := u32 i.oldEndPoint.row, column := u32 i.oldEndPoint.column } }

/-- An engine tree, modelled by the list of `TSInputEdit`s it has received
through `ts_tree_edit` (the only mutation relevant to the edit claims). -/
abbrev EngTree : Type := List TSInputEdit

/-- Embeds `Tree.Edit` of `treesitter.go`: the engine receives `i.c()`. -/
def EngTree.edit (t : EngTree) (i : EditInput) : EngTree := t ++ [i.c]

/-- Embeds the composite `MarkdownTree` of the `markdown` package: one
primary block tree plus the ordered secondary inline trees.  (The
`inlineIndices` identity table is not needed by the edit claims.) -/
structure MarkdownTree where
  blockTree : EngTree
  inlineTrees : List EngTree
  deriving DecidableEq

/-- Embeds `MarkdownTree.Edit`: the edit descriptor is applied to the
primary block tree and, in order, to every live secondary inline tree. -/
def MarkdownTree.edit (t : MarkdownTree) (i : EditInput) : MarkdownTree :=
  { blockTree := t.blockTree.edit i
    inlineTrees := t.inlineTrees.map (fun tr => tr.edit i) }

/-- The errors `Parser.convertTSTree` can return: the context's own error
(`ctx.Err()`), `ErrNoLanguage`, or `ErrOperationLimit`. -/
inductive ParseErr (ε : Type) where
  | fromCtx (e : ε)
  | noLanguage
  | operationLimit
  deriving DecidableEq

/-- The auxiliary parser state `convertTSTree` consults and updates: the
cancellation flag (`*p.cancel`) and the configured language
(`ts_parser_language(p.c)`, `nil` when no grammar is set). -/
structure ParserState (Λ : Type) where
  cancel : Nat
  language : Option Λ
  deriving DecidableEq

/-- Embeds `Parser.convertTSTree` of `treesitter.go`: when the engine
returned a null tree, first a fired context produces the context's error
(resetting the cancellation flag to 0), then a missing language produces
`ErrNoLanguage`, otherwise `ErrOperationLimit`; a non-null tree is
returned as a success without touching the state. -/
def convertTSTree {ε Λ T : Type} (p : ParserState Λ) (ctxErr : Option ε) (tsTree : Option T) :
    ParserState Λ × Except (ParseErr ε) T :=
  match tsTree with
  | none =>
      match ctxErr with
      | some e => ({ p with cancel := 0 }, Except.error (ParseErr.fromCtx e))
      | none =>
          match p.language with
          | none => (p, Except.error ParseErr.noLanguage)
          | some _ => (p, Except.error ParseErr.operationLimit)
  | some t => (p, Except.ok t)

/-- The kind of a predicate step (`QueryPredicateStepType` in
`treesitter.go`): terminator, capture reference, or literal string. -/
inductive StepType where
  | done
  | capture
  | string
  deriving DecidableEq

/-- One predicate step (`QueryPredicateStep`): a kind plus a value id
resolved through the query's capture-name or string-value tables. -/
structure PredStep where
  type : StepType
  valueId : Nat
  deriving DecidableEq

/-- The zero value of `QueryPredicateStep`. -/
def defaultStep : PredStep := { type := StepType.done, valueId := 0 }

/-- A syntax node as the predicate filter sees it: an identity (`ts_node`
id) and its byte span.  The Go zero value `Node{}` is `nullNode`. -/
structure Node where
  id : Nat
  startByte : Nat
  endByte : Nat
  deriving DecidableEq

/-- The Go zero value `Node{}` used as the not-yet-found sentinel in
`FilterPredicates`. -/
def nullNode : Node := { id := 0, startByte := 0, endByte := 0 }

/-- A captured node (`QueryCapture`): capture index plus node. -/
structure QueryCapture where
  index : Nat
  node : Node
  deriving DecidableEq

/-- A raw query match (`QueryMatch`): id, pattern index and the ordered
captures. -/
structure QueryMatch where
  id : Nat
  patternIndex : Nat
  captures : List QueryCapture
  deriving DecidableEq

/-- A compiled query, restricted to what the predicate layer consults:
the capture-name table (`CaptureNameForId`), the string-value table
(`StringValueForId`) and, per pattern, the predicate invocations
(`PredicatesForPattern`, already split at `Done` steps the way
`splitPredicates` groups them). -/
structure Query where
  captureNames : List String
  stringValues : List String
  predicates : List (List (List PredStep))
  deriving DecidableEq

/-- `Query.CaptureNameForId`. -/
def Query.captureNameForId (q : Query) (i : Nat) : String := q.captureNames.getD i ""

/-- `Query.StringValueForId`. -/
def Query.stringValueForId (q : Query) (i : Nat) : String := q.stringValues.getD i ""

/-- `Query.PredicatesForPattern`. -/
def Query.predicatesForPattern (q : Query) (i : Nat) : List (List PredStep) :=
  q.predicates.getD i []

/-- `nodeContent(n, b) = b[n.StartByte():n.EndByte()]` of `treesitter.go`,
on bytes modelled as `List Nat`. -/
def nodeContent (n : Node) (b : List Nat) : List Nat :=
  (b.drop n.startByte).take (n.endByte - n.startByte)

/-- The UTF-8 bytes of a literal string (used where `FilterPredicates`
compares `string(nodeContent(...))` against a literal). -/
def strBytes (s : String) : List Nat := s.toUTF8.data.toList.map UInt8.toNat

/-- Embeds the capture-against-capture loop of the `eq?`/`not-eq?` case of
`QueryCursor.FilterPredicates`: walk the captures in match order, keeping
the most recent node seen for each of the two names in `nodeLeft` /
`nodeRight` (initially the zero node); at the first step where both are
non-null, compare their byte content once and stop, the invocation passing
iff the equality result agrees with `isPositive`.  If the walk ends before
both are found the invocation passes. -/
def eqCaptureScan (q : Query) (input : List Nat) (leftName rightName : String)
    (isPositive : Bool) : List QueryCapture → Node → Node → Bool
  | [], _, _ => true
  | c :: rest, nodeLeft, nodeRight =>
      let nodeLeft' := if q.captureNameForId c.index = leftName then c.node else nodeLeft
      let nodeRight' := if q.captureNameForId c.index = rightName then c.node else nodeRight
      if nodeLeft' ≠ nullNode ∧ nodeRight' ≠ nullNode then
        decide (nodeContent nodeLeft' input = nodeContent nodeRight' input) == isPositive
      else
        eqCaptureScan q input leftName rightName isPositive rest nodeLeft' nodeRight'

/-- Embeds the capture-against-literal loop of the `eq?`/`not-eq?` case of
`QueryCursor.FilterPredicates`: every capture bound to the name is
compared against the literal; the first disagreement with `isPositive`
fails the invocation. -/
def eqLiteralScan (q : Query) (input : List Nat) (leftName : String)
    (expectedRight : String) (isPositive : Bool) : List QueryCapture → Bool
  | [] => true
  | c :: rest =>
      if q.captureNameForId c.index ≠ leftName then
        eqLiteralScan q input leftName expectedRight isPositive rest
      else if (decide (nodeContent c.node input = strBytes expectedRight)) != isPositive then
        false
      else
        eqLiteralScan q input leftName expectedRight isPositive rest

/-- Embeds the capture loop of the `match?`/`not-match?` case of
`QueryCursor.FilterPredicates`: every capture bound to the name is tested
against the compiled regular expression `rm`; the first disagreement with
`isPositive` fails the invocation. -/
def matchScan (q : Query) (input : List Nat) (name : String)
    (rm : List Nat → Bool) (isPositive : Bool) : List QueryCapture → Bool
  | [] => true
  | c :: rest =>
      if q.captureNameForId c.index ≠ name then
        matchScan q input name rm isPositive rest
      else if rm (nodeContent c.node input) != isPositive then
        false
      else
        matchScan q input name rm isPositive rest

/-- Evaluates one predicate invocation of `QueryCursor.FilterPredicates`
against a match's captures, returning whether the invocation passed.
`compileRegex` models Go's `regexp.MustCompile`, which the source calls on
the invocation's literal pattern at match time: `none` models the panic
`MustCompile` raises on a pattern that does not compile, which aborts
`FilterPredicates` (modelled as `Except.error ()`); operators other than
the four comparison operators fall through the `switch` and never fail the
match. -/
def evalPredicate (compileRegex : String → Option (List Nat → Bool)) (q : Query)
    (input : List Nat) (captures : List QueryCapture) (steps : List PredStep) :
    Except Unit Bool :=
  match steps with
  | [] => Except.ok true
  | step0 :: _ =>
      let operator := q.stringValueForId step0.valueId
      if operator = "eq?" ∨ operator = "not-eq?" then
        let isPositive := decide (operator = "eq?")
        let leftName := q.captureNameForId (steps.getD 1 defaultStep).valueId
        if (steps.getD 2 defaultStep).type = StepType.capture then
          let rightName := q.captureNameForId (steps.getD 2 defaultStep).valueId
          Except.ok (eqCaptureScan q input leftName rightName isPositive captures
            nullNode nullNode)
        else
          let expectedRight := q.stringValueForId (steps.getD 2 defaultStep).valueId
          Except.ok (eqLiteralScan q input leftName expectedRight isPositive captures)
      else if operator = "match?" ∨ operator = "not-match?" then
        let isPositive := decide (operator = "match?")
        let name := q.captureNameForId (steps.getD 1 defaultStep).valueId
        match compileRegex (q.stringValueForId (steps.getD 2 defaultStep).valueId) with
        | none => Except.error ()
        | some rm => Except.ok (matchScan q input name rm isPositive captures)
      else
        Except.ok true

/-- Folds `matchedAll` over the predicate invocations the way the loop of
`QueryCursor.FilterPredicates` does: every invocation is evaluated (the
source's `break` on a failed `eq?` only leaves the `switch`, not the
loop), and `matchedAll` can only be cleared, never set. -/
def evalAll (compileRegex : String → Option (List Nat → Bool)) (q : Query)
    (input : List Nat) (captures : List QueryCapture) :
    List (List PredStep) → Bool → Except Unit Bool
  | [], acc => Except.ok acc
  | steps :: rest, acc =>
      match evalPredicate compileRegex q input captures steps with
      | Except.error e => Except.error e
      | Except.ok pass => evalAll compileRegex q input captures rest (acc && pass)

/-- Embeds `QueryCursor.FilterPredicates`: a pattern without predicates
returns the captures unchanged; otherwise all invocations are evaluated
and the result carries all original captures if every invocation passed,
or an empty capture list if one failed.  The match id and pattern index
are always copied from the input match. -/
def filterPredicates (compileRegex : String → Option (List Nat → Bool)) (q : Query)
    (m : QueryMatch) (input : List Nat) : Except Unit QueryMatch :=
  let preds := q.predicatesForPattern m.patternIndex
  if preds.length = 0 then
    Except.ok { id := m.id, patternIndex := m.patternIndex, captures := m.captures }
  else
    match evalAll compileRegex q input m.captures preds true with
    | Except.error e => Except.error e
    | Except.ok matchedAll =>
        Except.ok { id := m.id, patternIndex := m.patternIndex,
                    captures := if matchedAll then m.captures else [] }

/-- A total `compileRegex`, modelling the case where every pattern handed
to `regexp.MustCompile` is a valid regular expression with matcher `rm`. -/
def totalCompile (rm : String → List Nat → Bool) : String → Option (List Nat → Bool) :=
  fun s => some (rm s)

/-- Embeds the per-invocation validation of `NewQuery` in `treesitter.go`
(the loop added for syntax validation): an empty step group is skipped; a
first step that is not a literal string is rejected; the recognized
operators have their arity and argument kinds checked, producing the
source's error messages; every other operator is accepted without
argument validation.  `some msg` is a compile error (`NewQuery` returns
`(nil, error)`), `none` is acceptance of this invocation. -/
def checkPredicate (sv : Nat → String) (steps : List PredStep) : Option String :=
  match steps with
  | [] => none
  | step0 :: _ =>
      if step0.type ≠ StepType.string then
        some "predicate must begin with a literal value"
      else
        let operator := sv step0.valueId
        if operator = "eq?" ∨ operator = "not-eq?" then
          if steps.length ≠ 4 then
            some ("wrong number of arguments to `#" ++ operator ++
              "` predicate. Expected 2, got " ++ toString (steps.length - 2))
          else if (steps.getD 1 defaultStep).type ≠ StepType.capture then
            some ("first argument of `#" ++ operator ++
              "` predicate must be a capture. Got " ++ sv (steps.getD 1 defaultStep).valueId)
          else none
        else if operator = "match?" ∨ operator = "not-match?" then
          if steps.length ≠ 4 then
            some ("wrong number of arguments to `#" ++ operator ++
              "` predicate. Expected 2, got " ++ toString (steps.length - 2))
          else if (steps.getD 1 defaultStep).type ≠ StepType.capture then
            some ("first argument of `#" ++ operator ++
              "` predicate must be a capture. Got " ++ sv (steps.getD 1 defaultStep).valueId)
          else if (steps.getD 2 defaultStep).type ≠ StepType.string then
            some ("second argument of `#" ++ operator ++
              "` predicate must be a string. Got " ++ sv (steps.getD 2 defaultStep).valueId)
          else none
        else if operator = "set!" ∨ operator = "is?" ∨ operator = "is-not?" then
          if steps.length < 3 ∨ steps.length > 4 then
            some ("wrong number of arguments to `#" ++ operator ++
              "` predicate. Expected 1 or 2, got " ++ toString (steps.length - 2))
          else if (steps.getD 1 defaultStep).type ≠ StepType.string then
            some ("first argument of `#" ++ operator ++
              "` predicate must be a string. Got " ++ sv (steps.getD 1 defaultStep).valueId)
          else if steps.length > 2 ∧ (steps.getD 2 defaultStep).type ≠ StepType.string then
            some ("second argument of `#" ++ operator ++
              "` predicate must be a string. Got " ++ sv (steps.getD 2 defaultStep).valueId)
          else none
        else none

/-- Validation of one pattern's invocation list: the first offending
invocation's error is returned, as in the inner loop of `NewQuery`. -/
def checkPattern (sv : Nat → String) : List (List PredStep) → Option String
  | [] => none
  | steps :: rest =>
      match checkPredicate sv steps with
      | some e => some e
      | none => checkPattern sv rest

/-- Validation across all patterns, as in the outer loop of `NewQuery`
over `0 ≤ i < PatternCount`. -/
def checkAllPatterns (sv : Nat → String) : List (List (List PredStep)) → Option String
  | [] => none
  | ps :: rest =>
      match checkPattern sv ps with
      | some e => some e
      | none => checkAllPatterns sv rest

/-- The tail of `NewQuery` after the engine accepted the pattern source:
the predicate validation either rejects the query with its error message
(no `Query` value is produced) or returns the query. -/
def newQueryPredicateGate (q : Query) : Except String Query :=
  match checkAllPatterns q.stringValueForId q.predicates with
  | some e => Except.error e
  | none => Except.ok q

/-- One anchor node captured by the anchor query of `ParseCtx` in the
`markdown` package: its node identity, its own range, and the ranges of
its named children in traversal order. -/
structure Anchor where
  nodeId : Nat
  range : Range
  childRanges : List Range

/-- Embeds the old-tree selection of the inline loop of `ParseCtx`:
`if oldTree != nil && idx < len(oldTree.inlineTrees) - old = oldTree.inlineTrees[idx]`. -/
def selectOldTree {T : Type} (oldTrees : Option (List T)) (idx : Nat) : Option T :=
  match oldTrees with
  | some ts => if idx < ts.length then ts.get? idx else none
  | none => none

/-- Embeds the secondary-parse loop of `ParseCtx`: for each captured
anchor in traversal order, compute its covering range set, pick the
predecessor secondary tree by the running ordinal `idx`, and hand both to
the range-restricted parse (`p.SetIncludedRanges(ranges)` followed by
`p.Parse(ctx, old, content)`, abstracted as the function `parse`). -/
def parseInlineTrees {T : Type} (parse : Option T → List Range → T)
    (oldTrees : Option (List T)) (idx : Nat) : List Anchor → List T
  | [] => []
  | a :: rest =>
      parse (selectOldTree oldTrees idx) (coveringRanges a.range a.childRanges) ::
      parseInlineTrees parse oldTrees (idx + 1) rest

/-- Whether some capture in `l` is bound to the capture name `name`. -/
def boundIn (q : Query) (name : String) (l : List QueryCapture) : Bool :=
  l.any (fun c => q.captureNameForId c.index = name)

/-- Whether both names are bound somewhere in `l`. -/
def bothBoundIn (q : Query) (leftName rightName : String) (l : List QueryCapture) : Bool :=
  boundIn q leftName l && boundIn q rightName l

/-- The node of the most recent capture in `l` bound to `name`, or the
zero node when the name is unbound. -/
def lastBoundNode (q : Query) (name : String) (l : List QueryCapture) : Node :=
  match (l.filter (fun c => q.captureNameForId c.index = name)).getLast? with
  | some c => c.node
  | none => nullNode

/-! ## Theorems -/

/-- C1: evaluating the covering-range computation of `ParseCtx` at the
spec's own example — an anchor spanning bytes `[0,12)` with named children
`[2,5)` and `[8,10)` — yields the byte spans `[0,5) [5,10) [10,12)`,
because each appended range ends at the child's *end* byte, not its start
byte; the claimed gap set `[0,2) [5,8) [10,12)`, which excludes every byte
owned by a named child, is not what the code computes. -/
theorem coveringRanges_at_claimed_example :
    (coveringRanges ⟨⟨0, 0⟩, ⟨0, 12⟩, 0, 12⟩
        [⟨⟨0, 2⟩, ⟨0, 5⟩, 2, 5⟩, ⟨⟨0, 8⟩, ⟨0, 10⟩, 8, 10⟩]).map
        (fun r => (r.startByte, r.endByte)) = [(0, 5), (5, 10), (10, 12)] ∧
    (coveringRanges ⟨⟨0, 0⟩, ⟨0, 12⟩, 0, 12⟩
        [⟨⟨0, 2⟩, ⟨0, 5⟩, 2, 5⟩, ⟨⟨0, 8⟩, ⟨0, 10⟩, 8, 10⟩]).map
        (fun r => (r.startByte, r.endByte)) ≠ [(0, 2), (5, 8), (10, 12)] := by
  exact ⟨by decide, by decide⟩

/-- C2: editing a composite `MarkdownTree` does hand the descriptor to the
primary tree and to every live secondary tree, but the `TSInputEdit` each
engine tree receives does not carry the descriptor's fields exactly: at an
edit whose new-end point `(0,5)` differs from its old-end point `(0,2)`,
the engine's `new_end_point` is `(0,2)` — `EditInput.c` populates it from
`OldEndPoint` — and not the descriptor's new-end point `(0,5)`. -/
theorem markdownEdit_newEndPoint_divergence :
    MarkdownTree.edit ⟨[], [[], []]⟩ ⟨0, 2, 5, ⟨0, 0⟩, ⟨0, 2⟩, ⟨0, 5⟩⟩ =
      ⟨[EditInput.c ⟨0, 2, 5, ⟨0, 0⟩, ⟨0, 2⟩, ⟨0, 5⟩⟩],
        [[EditInput.c ⟨0, 2, 5, ⟨0, 0⟩, ⟨0, 2⟩, ⟨0, 5⟩⟩],
         [EditInput.c ⟨0, 2, 5, ⟨0, 0⟩, ⟨0, 2⟩, ⟨0, 5⟩⟩]]⟩ ∧
    (EditInput.c ⟨0, 2, 5, ⟨0, 0⟩, ⟨0, 2⟩, ⟨0, 5⟩⟩).new_end_point = ⟨0, 2⟩ ∧
    (EditInput.c ⟨0, 2, 5, ⟨0, 0⟩, ⟨0, 2⟩, ⟨0, 5⟩⟩).new_end_point ≠ ⟨0, 5⟩ := by
  exact ⟨by decide, by decide, by decide⟩

/-- C6: a `match?` invocation whose second argument is the literal string
`"("` — a string that is not a valid regular expression — is accepted by
the predicate validation of `NewQuery` (which checks only that the
argument is a literal string), yet evaluating the same invocation at match
time aborts `FilterPredicates`, because the source calls
`regexp.MustCompile` on the pattern and `MustCompile` panics on an invalid
pattern instead of returning an error value. -/
theorem matchPredicate_compileAccepted_panics :
    newQueryPredicateGate
        ⟨["x"], ["match?", "("],
          [[[⟨StepType.string, 0⟩, ⟨StepType.capture, 0⟩, ⟨StepType.string, 1⟩,
             ⟨StepType.done, 0⟩]]]⟩ =
      Except.ok
        ⟨["x"], ["match?", "("],
          [[[⟨StepType.string, 0⟩, ⟨StepType.capture, 0⟩, ⟨StepType.string, 1⟩,
             ⟨StepType.done, 0⟩]]]⟩ ∧
    filterPredicates (fun s => if s = "(" then none else some (fun _ => true))
        ⟨["x"], ["match?", "("],
          [[[⟨StepType.string, 0⟩, ⟨StepType.capture, 0⟩, ⟨StepType.string, 1⟩,
             ⟨StepType.done, 0⟩]]]⟩
        ⟨1, 0, [⟨0, ⟨1, 0, 1⟩⟩]⟩ [7] = Except.error () := by
  exact ⟨rfl, rfl⟩

/-- C10: `convertTSTree` turns the engine's null tree into exactly one of
the three distinguished errors, in priority order: a fired context
produces the context's own error and resets the cancellation flag to 0
(leaving the parser reusable); otherwise a missing language produces
`ErrNoLanguage`; otherwise `ErrOperationLimit`; and a non-null engine tree
is always returned as a success, untouched. -/
theorem convertTSTree_outcomes {ε Λ T : Type} (p : ParserState Λ) (ctxErr : Option ε)
    (tsTree : Option T) :
    (∀ t, tsTree = some t → convertTSTree p ctxErr tsTree = (p, Except.ok t)) ∧
    (∀ e, tsTree = none → ctxErr = some e →
      convertTSTree p ctxErr tsTree =
        ({ p with cancel := 0 }, Except.error (ParseErr.fromCtx e))) ∧
    (tsTree = none → ctxErr = none → p.language = none →
      convertTSTree p ctxErr tsTree = (p, Except.error ParseErr.noLanguage)) ∧
    (∀ l, tsTree = none → ctxErr = none → p.language = some l →
      convertTSTree p ctxErr tsTree = (p, Except.error ParseErr.operationLimit)) := by
  refine ⟨?_, ?_, ?_, ?_⟩
  · intro t ht; subst ht; rfl
  · intro e ht hc; subst ht; subst hc; rfl
  · intro ht hc hl; subst ht; subst hc; simp [convertTSTree, hl]
  · intro l ht hc hl; subst ht; subst hc; simp [convertTSTree, hl]

/-- C10 witness: a null engine tree with a fired context yields the
context's error and a reset cancellation flag. -/
theorem convertTSTree_outcomes_witness :
    convertTSTree (⟨1, some 0⟩ : ParserState Nat) (some 42 : Option Nat) (none : Option Nat) =
      (⟨0, some 0⟩, Except.error (ParseErr.fromCtx 42)) := by
  exact (convertTSTree_outcomes ⟨1, some 0⟩ (some 42) none).2.1 42 rfl rfl

/-- The secondary parse at list position `i` of the loop started at
ordinal `idx` uses the predecessor tree at ordinal `idx + i`. -/
lemma parseInlineTrees_get {T : Type} (parse : Option T → List Range → T)
    (oldTrees : Option (List T)) :
    ∀ (anchors : List Anchor) (idx i : Nat) (h : i < anchors.length),
      (parseInlineTrees parse oldTrees idx anchors).get? i =
        some (parse (selectOldTree oldTrees (idx + i))
          (coveringRanges (anchors.get ⟨i, h⟩).range (anchors.get ⟨i, h⟩).childRanges)) := by
  intro anchors
  induction anchors with
  | nil => intro idx i h; exact absurd h (by simp)
  | cons a rest ih =>
      intro idx i h
      cases i with
      | zero => simp [parseInlineTrees]
      | succ j =>
          have hj : j < rest.length := by
            simpa [Nat.succ_lt_succ_iff] using h
          have := ih (idx + 1) j hj
          simpa [parseInlineTrees, Nat.add_assoc, Nat.add_comm 1 j] using this

/-- C5: the range-restricted secondary parse of the `i`-th captured anchor
(in anchor-query traversal order, counting from zero) receives exactly the
predecessor composite's `i`-th secondary tree whenever that composite had
more than `i` secondary trees, and no previous tree otherwise; the
selection consults only the ordinal position, never the anchor's node
identity, so the anchors before an edited later region keep their old
trees for incremental reuse. -/
theorem secondaryReuse_byOrdinal {T : Type} (parse : Option T → List Range → T)
    (oldTrees : Option (List T)) (anchors : List Anchor) (i : Nat)
    (h : i < anchors.length) :
    (parseInlineTrees parse oldTrees 0 anchors).get? i =
      some (parse (selectOldTree oldTrees i)
        (coveringRanges (anchors.get ⟨i, h⟩).range (anchors.get ⟨i, h⟩).childRanges)) ∧
    (∀ ts, oldTrees = some ts → i < ts.length → selectOldTree oldTrees i = ts.get? i) ∧
    (∀ ts, oldTrees = some ts → ts.length ≤ i → selectOldTree oldTrees i = none) ∧
    (oldTrees = none → selectOldTree oldTrees i = none) := by
  refine ⟨?_, ?_, ?_, ?_⟩
  · have := parseInlineTrees_get parse oldTrees anchors 0 i h
    simpa using this
  · intro ts hts hlen; subst hts; simp [selectOldTree, hlen]
  · intro ts hts hlen; subst hts
    simp [selectOldTree, Nat.not_lt_of_le hlen]
  · intro hts; subst hts; rfl

/-- C5 witness: with two predecessor secondary trees `10` and `20` and two
anchors, the parse of the first anchor is handed tree `10`. -/
theorem secondaryReuse_byOrdinal_witness :
    (parseInlineTrees (fun o rs => o.getD 0 + rs.length) (some [10, 20]) 0
        [⟨1, ⟨⟨0, 0⟩, ⟨0, 4⟩, 0, 4⟩, []⟩, ⟨2, ⟨⟨0, 5⟩, ⟨0, 9⟩, 5, 9⟩, []⟩]).get? 0 =
      some 11 := by
  have h := secondaryReuse_byOrdinal (fun o rs => o.getD 0 + rs.length) (some [10, 20])
    [⟨1, ⟨⟨0, 0⟩, ⟨0, 4⟩, 0, 4⟩, []⟩, ⟨2, ⟨⟨0, 5⟩, ⟨0, 9⟩, 5, 9⟩, []⟩] 0 (by decide)
  exact h.1.trans (by rfl)

/-- The capture loop of `match?`/`not-match?` passes exactly when every
capture bound to the name agrees with `isPositive` under the regex. -/
lemma matchScan_eq_true_iff (q : Query) (input : List Nat) (name : String)
    (rm : List Nat → Bool) (isPositive : Bool) (captures : List QueryCapture) :
    matchScan q input name rm isPositive captures = true ↔
      ∀ c ∈ captures, q.captureNameForId c.index = name →
        rm (nodeContent c.node input) = isPositive := by
  induction captures with
  | nil => simp [matchScan]
  | cons c rest ih =>
      by_cases hn : q.captureNameForId c.index = name
      · by_cases hr : rm (nodeContent c.node input) = isPositive
        · simp [matchScan, hn, hr, ih]
        · simp [matchScan, hn, hr]
      · simp [matchScan, hn, ih]

/-- C4: a `match?` invocation passes iff every capture bound to the named
capture in the match satisfies the compiled regular expression, and a
`not-match?` invocation passes iff every such capture fails it — one
non-conforming occurrence among multiple bindings rejects the whole
invocation, and a name with no bound occurrence passes vacuously. -/
theorem matchPredicate_allOccurrences (q : Query)
    (compileRegex : String → Option (List Nat → Bool)) (input : List Nat)
    (captures : List QueryCapture) (i0 i1 i2 i3 : Nat) (rm : List Nat → Bool)
    (hc : compileRegex (q.stringValueForId i2) = some rm) :
    (q.stringValueForId i0 = "match?" →
      (evalPredicate compileRegex q input captures
          [⟨StepType.string, i0⟩, ⟨StepType.capture, i1⟩, ⟨StepType.string, i2⟩,
           ⟨StepType.done, i3⟩] = Except.ok true ↔
        ∀ c ∈ captures, q.captureNameForId c.index = q.captureNameForId i1 →
          rm (nodeContent c.node input) = true)) ∧
    (q.stringValueForId i0 = "not-match?" →
      (evalPredicate compileRegex q input captures
          [⟨StepType.string, i0⟩, ⟨StepType.capture, i1⟩, ⟨StepType.string, i2⟩,
           ⟨StepType.done, i3⟩] = Except.ok true ↔
        ∀ c ∈ captures, q.captureNameForId c.index = q.captureNameForId i1 →
          rm (nodeContent c.node input) = false)) := by
  constructor
  · intro hop
    simp [evalPredicate, hop, hc, matchScan_eq_true_iff]
  · intro hop
    simp [evalPredicate, hop, hc, matchScan_eq_true_iff]

/-- C4 witness: with the name `a` bound twice and a regex matcher
accepting non-empty content, `match?` passes on both occurrences. -/
theorem matchPredicate_allOccurrences_witness :
    evalPredicate (totalCompile (fun _ l => decide (l ≠ [])))
        ⟨["a"], ["match?", "^r"], []⟩ [114, 101]
        [⟨0, ⟨1, 0, 1⟩⟩, ⟨0, ⟨2, 1, 2⟩⟩]
        [⟨StepType.string, 0⟩, ⟨StepType.capture, 0⟩, ⟨StepType.string, 1⟩,
         ⟨StepType.done, 0⟩] = Except.ok true := by
  exact ((matchPredicate_allOccurrences ⟨["a"], ["match?", "^r"], []⟩
      (totalCompile (fun _ l => decide (l ≠ []))) [114, 101]
      [⟨0, ⟨1, 0, 1⟩⟩, ⟨0, ⟨2, 1, 2⟩⟩] 0 0 1 0 (fun l => decide (l ≠ []))
      rfl).1 rfl).mpr (by decide)

/-- With a total regex compiler, one invocation never aborts. -/
lemma evalPredicate_total (rm : String → List Nat → Bool) (q : Query) (input : List Nat)
    (captures : List QueryCapture) (steps : List PredStep) :
    ∃ b, evalPredicate (totalCompile rm) q input captures steps = Except.ok b := by
  unfold evalPredicate totalCompile
  cases steps with
  | nil => exact ⟨true, rfl⟩
  | cons s0 rest =>
      dsimp only
      split
      · split
        · exact ⟨_, rfl⟩
        · exact ⟨_, rfl⟩
      · split
        · exact ⟨_, rfl⟩
        · exact ⟨_, rfl⟩

/-- With a total regex compiler, the predicate fold never aborts. -/
lemma evalAll_total (rm : String → List Nat → Bool) (q : Query) (input : List Nat)
    (captures : List QueryCapture) :
    ∀ (preds : List (List PredStep)) (acc : Bool),
      ∃ b, evalAll (totalCompile rm) q input captures preds acc = Except.ok b := by
  intro preds
  induction preds with
  | nil => intro acc; exact ⟨acc, rfl⟩
  | cons steps rest ih =>
      intro acc
      obtain ⟨b, hb⟩ := evalPredicate_total rm q input captures steps
      obtain ⟨b', hb'⟩ := ih (acc && b)
      exact ⟨b', by simp [evalAll, hb, hb']⟩

/-- If every invocation passes, the fold preserves the accumulator. -/
lemma evalAll_all_true (C : String → Option (List Nat → Bool)) (q : Query)
    (input : List Nat) (captures : List QueryCapture) :
    ∀ (preds : List (List PredStep)) (acc : Bool),
      (∀ steps ∈ preds, evalPredicate C q input captures steps = Except.ok true) →
      evalAll C q input captures preds acc = Except.ok acc := by
  intro preds
  induction preds with
  | nil => intro acc _; rfl
  | cons steps rest ih =>
      intro acc h
      have h0 := h steps (by simp)
      have h1 := ih acc (fun s hs => h s (by simp [hs]))
      simp [evalAll, h0, h1]

/-- Once the accumulator is false it stays false (total compiler). -/
lemma evalAll_false_acc (rm : String → List Nat → Bool) (q : Query) (input : List Nat)
    (captures : List QueryCapture) :
    ∀ (preds : List (List PredStep)),
      evalAll (totalCompile rm) q input captures preds false = Except.ok false := by
  intro preds
  induction preds with
  | nil => rfl
  | cons steps rest ih =>
      obtain ⟨b, hb⟩ := evalPredicate_total rm q input captures steps
      simp [evalAll, hb, ih]

/-- A failing invocation forces the fold to false (total compiler). -/
lemma evalAll_exists_false (rm : String → List Nat → Bool) (q : Query) (input : List Nat)
    (captures : List QueryCapture) :
    ∀ (preds : List (List PredStep)) (acc : Bool),
      (∃ steps ∈ preds, evalPredicate (totalCompile rm) q input captures steps =
        Except.ok false) →
      evalAll (totalCompile rm) q input captures preds acc = Except.ok false := by
  intro preds
  induction preds with
  | nil => intro acc h; exact absurd h (by simp)
  | cons steps rest ih =>
      intro acc h
      obtain ⟨s, hs, hfail⟩ := h
      rcases List.mem_cons.mp hs with h1 | h1
      · subst h1
        simp [evalAll, hfail, evalAll_false_acc rm q input captures rest]
      · obtain ⟨b, hb⟩ := evalPredicate_total rm q input captures steps
        have := ih (acc && b) ⟨s, h1, hfail⟩
        simp [evalAll, hb, this]

/-- An invocation whose operator is none of the four comparison operators
falls through the `switch` and passes. -/
lemma evalPredicate_unrecognized (C : String → Option (List Nat → Bool)) (q : Query)
    (input : List Nat) (captures : List QueryCapture) (steps : List PredStep)
    (s0 : PredStep) (h0 : steps.head? = some s0)
    (hop : q.stringValueForId s0.valueId ∉ (["eq?", "not-eq?", "match?", "not-match?"] : List String)) :
    evalPredicate C q input captures steps = Except.ok true := by
  cases steps with
  | nil => rfl
  | cons t rest =>
      have ht : t = s0 := by simpa using h0
      subst ht
      simp only [List.mem_cons, List.mem_singleton, List.not_mem_nil] at hop
      push_neg at hop
      obtain ⟨h1, h2, h3, h4⟩ := hop
      simp [evalPredicate, h1, h2, h3, h4]

/-- C7: with every regular expression compiling, `FilterPredicates`
returns a match whose id and pattern index are copied from the input; with
no predicate invocations on the pattern the captures are returned
unchanged; when every invocation passes, every original capture is kept in
order; when some invocation fails, the capture list is empty (the
rejection signal); and an invocation with an unrecognized operator name
always passes, whatever the captures hold. -/
theorem filterPredicates_gate (rm : String → List Nat → Bool) (q : Query) (m : QueryMatch)
    (input : List Nat) :
    ∃ fm, filterPredicates (totalCompile rm) q m input = Except.ok fm ∧
      fm.id = m.id ∧ fm.patternIndex = m.patternIndex ∧
      (q.predicatesForPattern m.patternIndex = [] → fm.captures = m.captures) ∧
      ((∀ steps ∈ q.predicatesForPattern m.patternIndex,
          evalPredicate (totalCompile rm) q input m.captures steps = Except.ok true) →
        fm.captures = m.captures) ∧
      ((∃ steps ∈ q.predicatesForPattern m.patternIndex,
          evalPredicate (totalCompile rm) q input m.captures steps = Except.ok false) →
        fm.captures = []) ∧
      (∀ (steps : List PredStep) (s0 : PredStep), steps.head? = some s0 →
        q.stringValueForId s0.valueId ∉ (["eq?", "not-eq?", "match?", "not-match?"] : List String) →
        evalPredicate (totalCompile rm) q input m.captures steps = Except.ok true) := by
  by_cases hp : (q.predicatesForPattern m.patternIndex).length = 0
  · refine ⟨⟨m.id, m.patternIndex, m.captures⟩,
      ?_, rfl, rfl, fun _ => rfl, fun _ => rfl, ?_, ?_⟩
    · simp [filterPredicates, hp]
    · intro h
      obtain ⟨s, hs, _⟩ := h
      rw [List.length_eq_zero.mp hp] at hs
      exact absurd hs (by simp)
    · intro steps s0 h0 hop
      exact evalPredicate_unrecognized (totalCompile rm) q input m.captures steps s0 h0 hop
  · obtain ⟨b, hb⟩ := evalAll_total rm q input m.captures
      (q.predicatesForPattern m.patternIndex) true
    refine ⟨⟨m.id, m.patternIndex, if b then m.captures else []⟩,
      ?_, rfl, rfl, ?_, ?_, ?_, ?_⟩
    · simp [filterPredicates, hp, hb]
    · intro h; exact absurd (by simp [h]) hp
    · intro h
      have := evalAll_all_true (totalCompile rm) q input m.captures
        (q.predicatesForPattern m.patternIndex) true h
      rw [this] at hb
      cases hb; simp
    · intro h
      have := evalAll_exists_false rm q input m.captures
        (q.predicatesForPattern m.patternIndex) true h
      rw [this] at hb
      cases hb; simp
    · intro steps s0 h0 hop
      exact evalPredicate_unrecognized (totalCompile rm) q input m.captures steps s0 h0 hop

/-- C7 witness: a pattern without predicates returns the captures
unchanged together with the input's id and pattern index. -/
theorem filterPredicates_gate_witness :
    filterPredicates (totalCompile (fun _ _ => true)) ⟨[], [], []⟩
        ⟨9, 0, [⟨0, ⟨1, 0, 1⟩⟩]⟩ [5] = Except.ok ⟨9, 0, [⟨0, ⟨1, 0, 1⟩⟩]⟩ := by
  obtain ⟨fm, h1, h2, h3, h4, -, -, -⟩ :=
    filterPredicates_gate (fun _ _ => true) ⟨[], [], []⟩ ⟨9, 0, [⟨0, ⟨1, 0, 1⟩⟩]⟩ [5]
  have hc : fm.captures = [⟨0, ⟨1, 0, 1⟩⟩] := h4 rfl
  obtain ⟨a, b, c⟩ := fm
  simp only at h2 h3 hc
  subst h2; subst h3; subst hc
  exact h1

/-- A violating invocation inside a pattern makes the pattern's validation
report an error. -/
lemma checkPattern_some_of_mem (sv : Nat → String) (ps : List (List PredStep))
    (steps : List PredStep) (e : String) (hm : steps ∈ ps)
    (he : checkPredicate sv steps = some e) :
    ∃ e', checkPattern sv ps = some e' := by
  induction ps with
  | nil => cases hm
  | cons s rest ih =>
      rcases List.mem_cons.mp hm with h1 | h1
      · subst h1
        exact ⟨e, by simp [checkPattern, he]⟩
      · rcases hs : checkPredicate sv s with - | x
        · obtain ⟨e', he'⟩ := ih h1
          exact ⟨e', by simp [checkPattern, hs, he']⟩
        · exact ⟨x, by simp [checkPattern, hs]⟩

/-- A violating invocation inside any pattern makes the whole validation
report an error. -/
lemma checkAllPatterns_some_of_mem (sv : Nat → String)
    (patterns : List (List (List PredStep))) (ps : List (List PredStep))
    (steps : List PredStep) (e : String) (hp : ps ∈ patterns) (hm : steps ∈ ps)
    (he : checkPredicate sv steps = some e) :
    ∃ e', checkAllPatterns sv patterns = some e' := by
  induction patterns with
  | nil => cases hp
  | cons p rest ih =>
      rcases List.mem_cons.mp hp with h1 | h1
      · obtain ⟨e', he'⟩ := checkPattern_some_of_mem sv ps steps e hm he
        exact ⟨e', by simp [checkAllPatterns, ← h1, he']⟩
      · rcases hs : checkPattern sv p with - | x
        · obtain ⟨e', he'⟩ := ih h1
          exact ⟨e', by simp [checkAllPatterns, hs, he']⟩
        · exact ⟨x, by simp [checkAllPatterns, hs]⟩

/-- C8: the predicate validation of `NewQuery` rejects, with an error
message carrying the offending operator's name, every invocation that
violates a recognized signature — a non-literal first step (with the fixed
malformed-predicate message), a comparison operator (`eq?`, `not-eq?`,
`match?`, `not-match?`) applied to other than two arguments or to a first
argument that is not a capture, `match?`/`not-match?` applied to a second
argument that is not a literal string, and `set!`/`is?`/`is-not?` applied
to an argument count outside one-to-two or to non-literal arguments —
while accepting invocations with unrecognized operator names without any
argument validation; and any violating invocation in any pattern makes
`NewQuery` return an error and no query. -/
theorem predicateValidation_signatures (sv : Nat → String) :
    (∀ (s0 : PredStep) (rest : List PredStep), s0.type ≠ StepType.string →
      checkPredicate sv (s0 :: rest) = some "predicate must begin with a literal value") ∧
    (∀ (s0 : PredStep) (rest : List PredStep), s0.type = StepType.string →
      (sv s0.valueId = "eq?" ∨ sv s0.valueId = "not-eq?" ∨ sv s0.valueId = "match?" ∨
        sv s0.valueId = "not-match?") →
      (s0 :: rest).length ≠ 4 →
      checkPredicate sv (s0 :: rest) = some ("wrong number of arguments to `#" ++
        sv s0.valueId ++ "` predicate. Expected 2, got " ++
        toString ((s0 :: rest).length - 2))) ∧
    (∀ (s0 : PredStep) (rest : List PredStep), s0.type = StepType.string →
      (sv s0.valueId = "eq?" ∨ sv s0.valueId = "not-eq?" ∨ sv s0.valueId = "match?" ∨
        sv s0.valueId = "not-match?") →
      (s0 :: rest).length = 4 →
      ((s0 :: rest).getD 1 defaultStep).type ≠ StepType.capture →
      checkPredicate sv (s0 :: rest) = some ("first argument of `#" ++ sv s0.valueId ++
        "` predicate must be a capture. Got " ++
        sv ((s0 :: rest).getD 1 defaultStep).valueId)) ∧
    (∀ (s0 : PredStep) (rest : List PredStep), s0.type = StepType.string →
      (sv s0.valueId = "match?" ∨ sv s0.valueId = "not-match?") →
      (s0 :: rest).length = 4 →
      ((s0 :: rest).getD 1 defaultStep).type = StepType.capture →
      ((s0 :: rest).getD 2 defaultStep).type ≠ StepType.string →
      checkPredicate sv (s0 :: rest) = some ("second argument of `#" ++ sv s0.valueId ++
        "` predicate must be a string. Got " ++
        sv ((s0 :: rest).getD 2 defaultStep).valueId)) ∧
    (∀ (s0 : PredStep) (rest : List PredStep), s0.type = StepType.string →
      (sv s0.valueId = "set!" ∨ sv s0.valueId = "is?" ∨ sv s0.valueId = "is-not?") →
      ((s0 :: rest).length < 3 ∨ (s0 :: rest).length > 4) →
      checkPredicate sv (s0 :: rest) = some ("wrong number of arguments to `#" ++
        sv s0.valueId ++ "` predicate. Expected 1 or 2, got " ++
        toString ((s0 :: rest).length - 2))) ∧
    (∀ (s0 : PredStep) (rest : List PredStep), s0.type = StepType.string →
      (sv s0.valueId = "set!" ∨ sv s0.valueId = "is?" ∨ sv s0.valueId = "is-not?") →
      ¬((s0 :: rest).length < 3 ∨ (s0 :: rest).length > 4) →
      ((s0 :: rest).getD 1 defaultStep).type ≠ StepType.string →
      checkPredicate sv (s0 :: rest) = some ("first argument of `#" ++ sv s0.valueId ++
        "` predicate must be a string. Got " ++
        sv ((s0 :: rest).getD 1 defaultStep).valueId)) ∧
    (∀ (s0 : PredStep) (rest : List PredStep), s0.type = StepType.string →
      (sv s0.valueId = "set!" ∨ sv s0.valueId = "is?" ∨ sv s0.valueId = "is-not?") →
      ¬((s0 :: rest).length < 3 ∨ (s0 :: rest).length > 4) →
      ((s0 :: rest).getD 1 defaultStep).type = StepType.string →
      (s0 :: rest).length > 2 ∧ ((s0 :: rest).getD 2 defaultStep).type ≠ StepType.string →
      checkPredicate sv (s0 :: rest) = some ("second argument of `#" ++ sv s0.valueId ++
        "` predicate must be a string. Got " ++
        sv ((s0 :: rest).getD 2 defaultStep).valueId)) ∧
    (∀ (s0 : PredStep) (rest : List PredStep), s0.type = StepType.string →
      sv s0.valueId ∉ (["eq?", "not-eq?", "match?", "not-match?", "set!", "is?",
        "is-not?"] : List String) →
      checkPredicate sv (s0 :: rest) = none) ∧
    (∀ (q : Query) (ps : List (List PredStep)) (steps : List PredStep) (e : String),
      q.stringValueForId = sv → ps ∈ q.predicates → steps ∈ ps →
      checkPredicate sv steps = some e →
      ∃ e', newQueryPredicateGate q = Except.error e') := by
  refine ⟨?_, ?_, ?_, ?_, ?_, ?_, ?_, ?_, ?_⟩
  · intro s0 rest h
    simp [checkPredicate, h]
  · intro s0 rest h hop hlen
    simp only [List.length_cons] at hlen
    rcases hop with h1 | h1 | h1 | h1 <;> simp [checkPredicate, h, h1, hlen]
  · intro s0 rest h hop hlen hcap
    rcases rest with - | ⟨a, - | ⟨b, - | ⟨c, - | ⟨d, t⟩⟩⟩⟩ <;> simp only [List.length_cons, List.length_nil] at hlen <;>
      try omega
    simp only [List.getD_cons_succ, List.getD_cons_zero] at hcap
    rcases hop with h1 | h1 | h1 | h1 <;> simp [checkPredicate, h, h1, hcap]
  · intro s0 rest h hop hlen hcap hstr
    rcases rest with - | ⟨a, - | ⟨b, - | ⟨c, - | ⟨d, t⟩⟩⟩⟩ <;> simp only [List.length_cons, List.length_nil] at hlen <;>
      try omega
    simp only [List.getD_cons_succ, List.getD_cons_zero] at hcap hstr
    rcases hop with h1 | h1 <;> simp [checkPredicate, h, h1, hcap, hstr]
  · intro s0 rest h hop hlen
    simp only [List.length_cons] at hlen
    rcases hop with h1 | h1 | h1 <;> simp [checkPredicate, h, h1, hlen] <;> omega
  · intro s0 rest h hop hlen hstr
    rcases rest with - | ⟨a, - | ⟨b, - | ⟨c, - | ⟨d, t⟩⟩⟩⟩ <;> simp only [List.length_cons, List.length_nil] at hlen <;>
      try omega
    all_goals simp only [List.getD_cons_succ, List.getD_cons_zero] at hstr
    all_goals rcases hop with h1 | h1 | h1 <;> simp [checkPredicate, h, h1, hstr]
  · intro s0 rest h hop hlen hstr h2
    rcases rest with - | ⟨a, - | ⟨b, - | ⟨c, - | ⟨d, t⟩⟩⟩⟩ <;> simp only [List.length_cons, List.length_nil] at hlen <;>
      try omega
    all_goals simp only [List.getD_cons_succ, List.getD_cons_zero] at hstr h2
    all_goals rcases hop with h1 | h1 | h1 <;> simp [checkPredicate, h, h1, hstr, h2]
  · intro s0 rest h hop
    simp only [List.mem_cons, List.mem_singleton, List.not_mem_nil] at hop
    push_neg at hop
    obtain ⟨h1, h2, h3, h4, h5, h6, h7⟩ := hop
    simp [checkPredicate, h, h1, h2, h3, h4, h5, h6, h7]
  · intro q ps steps e hsv hp hm he
    obtain ⟨e', he'⟩ := checkAllPatterns_some_of_mem sv q.predicates ps steps e hp hm he
    rw [← hsv] at he'
    exact ⟨e', by simp [newQueryPredicateGate, he']⟩

/-- C8 witness: an `eq?` invocation with zero arguments is rejected with
the wrong-arity message naming `eq?`. -/
theorem predicateValidation_signatures_witness :
    checkPredicate (fun i => ["eq?"].getD i "") [⟨StepType.string, 0⟩, ⟨StepType.done, 0⟩] =
      some "wrong number of arguments to `#eq?` predicate. Expected 2, got 0" := by
  exact (predicateValidation_signatures (fun i => ["eq?"].getD i "")).2.1
    ⟨StepType.string, 0⟩ [⟨StepType.done, 0⟩] rfl (Or.inl rfl) (by decide)

/-- A covering range set is never empty, and its first range starts at the
running cursor. -/
lemma coveringRanges_cons_head (r : Range) (children : List Range) :
    ∃ s t, coveringRanges r children = s :: t ∧ s.startByte = r.startByte := by
  cases children with
  | nil => exact ⟨r, [], rfl, rfl⟩
  | cons c rest => exact ⟨_, _, rfl, rfl⟩

/-- C9: under the precondition that the anchor's named children lie inside
the anchor's byte span in non-decreasing, non-overlapping order, the range
set `ParseCtx` hands to the range-restricted secondary parse satisfies the
engine contract of `SetIncludedRanges` — the ranges are ordered and appear
in non-decreasing, non-overlapping byte order — and a byte is covered by
the set exactly when it lies in the anchor's span, so the union of the set
equals the anchor's span. -/
theorem coveringRanges_engineContract (anchor : Range) (children : List Range)
    (h : childChain anchor.startByte anchor.endByte children = true)
    (h0 : anchor.startByte ≤ anchor.endByte) :
    rangeSetOrdered (coveringRanges anchor children) = true ∧
    ∀ b : Nat, covers (coveringRanges anchor children) b ↔
      anchor.startByte ≤ b ∧ b < anchor.endByte := by
  induction children generalizing anchor with
  | nil =>
      constructor
      · simpa [coveringRanges, rangeSetOrdered] using h0
      · intro b
        simp [coveringRanges, covers]
  | cons c rest ih =>
      simp only [childChain, Bool.and_eq_true, decide_eq_true_eq] at h
      obtain ⟨⟨⟨h1, h2⟩, h3⟩, h4⟩ := h
      obtain ⟨ihSorted, ihCovers⟩ :=
        ih { anchor with startPoint := c.endPoint, startByte := c.endByte } h4 h3
      constructor
      · obtain ⟨s, t, hs, hsb⟩ :=
          coveringRanges_cons_head { anchor with startPoint := c.endPoint, startByte := c.endByte } rest
        simp only [coveringRanges]
        rw [hs]
        rw [hs] at ihSorted
        simp only [rangeSetOrdered, Bool.and_eq_true, decide_eq_true_eq]
        refine ⟨⟨le_trans h1 h2, ?_⟩, ihSorted⟩
        rw [hsb]
      · intro b
        simp only [coveringRanges]
        constructor
        · rintro ⟨r, hr, hb1, hb2⟩
          rcases List.mem_cons.mp hr with h5 | h5
          · subst h5
            exact ⟨hb1, lt_of_lt_of_le hb2 h3⟩
          · have hsub := (ihCovers b).mp ⟨r, h5, hb1, hb2⟩
            exact ⟨le_trans (le_trans h1 h2) hsub.1, hsub.2⟩
        · rintro ⟨hb1, hb2⟩
          by_cases hc : b < c.endByte
          · exact ⟨⟨anchor.startPoint, c.endPoint, anchor.startByte, c.endByte⟩,
              List.mem_cons_self _ _, hb1, hc⟩
          · obtain ⟨r, hr, hr1, hr2⟩ := (ihCovers b).mpr ⟨Nat.le_of_not_lt hc, hb2⟩
            exact ⟨r, List.mem_cons_of_mem _ hr, hr1, hr2⟩

/-- C9 witness: at the anchor `[0,12)` with children `[2,5)` and `[8,10)`,
the computed range set is ordered and covers byte 6. -/
theorem coveringRanges_engineContract_witness :
    rangeSetOrdered (coveringRanges ⟨⟨0, 0⟩, ⟨0, 12⟩, 0, 12⟩
        [⟨⟨0, 2⟩, ⟨0, 5⟩, 2, 5⟩, ⟨⟨0, 8⟩, ⟨0, 10⟩, 8, 10⟩]) = true ∧
    covers (coveringRanges ⟨⟨0, 0⟩, ⟨0, 12⟩, 0, 12⟩
        [⟨⟨0, 2⟩, ⟨0, 5⟩, 2, 5⟩, ⟨⟨0, 8⟩, ⟨0, 10⟩, 8, 10⟩]) 6 := by
  have h := coveringRanges_engineContract ⟨⟨0, 0⟩, ⟨0, 12⟩, 0, 12⟩
    [⟨⟨0, 2⟩, ⟨0, 5⟩, 2, 5⟩, ⟨⟨0, 8⟩, ⟨0, 10⟩, 8, 10⟩] (by decide) (by decide)
  exact ⟨h.1, (h.2 6).mpr (by decide)⟩

/-- Boundness is monotone: bound in a front segment, bound in the list. -/
lemma boundIn_of_take (q : Query) (name : String) (l : List QueryCapture) (j : Nat)
    (h : boundIn q name (l.take j) = true) : boundIn q name l = true := by
  simp only [boundIn, List.any_eq_true] at h ⊢
  obtain ⟨c, hc, hp⟩ := h
  exact ⟨c, List.take_subset j l hc, hp⟩

/-- Joint boundness is monotone under taking a front segment. -/
lemma bothBoundIn_of_take (q : Query) (leftName rightName : String) (l : List QueryCapture)
    (j : Nat) (h : bothBoundIn q leftName rightName (l.take j) = true) :
    bothBoundIn q leftName rightName l = true := by
  simp only [bothBoundIn, Bool.and_eq_true] at h ⊢
  exact ⟨boundIn_of_take q leftName l j h.1, boundIn_of_take q rightName l j h.2⟩

/-- Appending one capture updates the most recent binding exactly when the
new capture carries the name. -/
lemma lastBoundNode_concat (q : Query) (name : String) (l : List QueryCapture)
    (c : QueryCapture) :
    lastBoundNode q name (l ++ [c]) =
      if q.captureNameForId c.index = name then c.node else lastBoundNode q name l := by
  unfold lastBoundNode
  rw [List.filter_append]
  by_cases hn : q.captureNameForId c.index = name
  · simp [hn, List.getLast?_concat]
  · simp [hn]

/-- With all capture nodes distinct from the zero node, the most recent
binding is non-null exactly when the name is bound at all. -/
lemma lastBoundNode_ne_null_iff (q : Query) (name : String) (l : List QueryCapture)
    (hnn : ∀ c ∈ l, c.node ≠ nullNode) :
    lastBoundNode q name l ≠ nullNode ↔ boundIn q name l = true := by
  rcases hl : (l.filter (fun c => q.captureNameForId c.index = name)).getLast? with - | cc
  · have hval : lastBoundNode q name l = nullNode := by
      unfold lastBoundNode; rw [hl]
    have hnil := List.getLast?_eq_none_iff.mp hl
    have hfa := List.filter_eq_nil_iff.mp hnil
    rw [hval]
    constructor
    · intro hne
      exact absurd rfl hne
    · intro hbd
      simp only [boundIn, List.any_eq_true] at hbd
      obtain ⟨c, hc, hp⟩ := hbd
      exact absurd hp (by simpa using hfa c hc)
  · have hval : lastBoundNode q name l = cc.node := by
      unfold lastBoundNode; rw [hl]
    have hmem := List.mem_filter.mp (List.mem_of_getLast?_eq_some hl)
    rw [hval]
    constructor
    · intro _h
      simp only [boundIn, List.any_eq_true]
      exact ⟨cc, hmem.1, hmem.2⟩
    · intro _h
      exact hnn cc hmem.1

/-- Boolean equality against `decide` unfolded into an iff. -/
lemma decide_beq_true_iff (P : Prop) [Decidable P] (b : Bool) :
    ((decide P == b) = true) ↔ (P ↔ b = true) := by
  by_cases hp : P <;> cases b <;> simp [hp]

/-- The capture-against-capture scan, resumed after a consumed front
segment with its accumulators holding the front's most recent bindings,
passes exactly when the comparison at the first index where both names
become bound (if any) agrees with `isPositive`. -/
lemma eqCaptureScan_spec_aux (q : Query) (input : List Nat) (leftName rightName : String)
    (isPositive : Bool) :
    ∀ (rest front : List QueryCapture),
      (∀ c ∈ front, c.node ≠ nullNode) → (∀ c ∈ rest, c.node ≠ nullNode) →
      bothBoundIn q leftName rightName front = false →
      (eqCaptureScan q input leftName rightName isPositive rest
          (lastBoundNode q leftName front) (lastBoundNode q rightName front) = true ↔
        ∀ k, k < (front ++ rest).length →
          bothBoundIn q leftName rightName ((front ++ rest).take (k + 1)) = true →
          bothBoundIn q leftName rightName ((front ++ rest).take k) = false →
          ((nodeContent (lastBoundNode q leftName ((front ++ rest).take (k + 1))) input =
              nodeContent (lastBoundNode q rightName ((front ++ rest).take (k + 1))) input) ↔
            isPositive = true)) := by
  intro rest
  induction rest with
  | nil =>
      intro front hf hr hboth
      simp only [List.append_nil]
      constructor
      · intro _h k hk h1 h2
        exact absurd (bothBoundIn_of_take q leftName rightName front (k + 1) h1)
          (by simp [hboth])
      · intro _h
        rfl
  | cons c rest' ih =>
      intro front hf hr hboth
      have hc0 : c.node ≠ nullNode := hr c (by simp)
      have hfc : ∀ x ∈ front ++ [c], x.node ≠ nullNode := by
        intro x hx
        rcases List.mem_append.mp hx with hx | hx
        · exact hf x hx
        · simp only [List.mem_singleton] at hx; subst hx; exact hc0
      have hrest' : ∀ x ∈ rest', x.node ≠ nullNode :=
        fun x hx => hr x (List.mem_cons_of_mem _ hx)
      have hstep : eqCaptureScan q input leftName rightName isPositive (c :: rest')
            (lastBoundNode q leftName front) (lastBoundNode q rightName front) =
          if lastBoundNode q leftName (front ++ [c]) ≠ nullNode ∧
              lastBoundNode q rightName (front ++ [c]) ≠ nullNode then
            decide (nodeContent (lastBoundNode q leftName (front ++ [c])) input =
              nodeContent (lastBoundNode q rightName (front ++ [c])) input) == isPositive
          else
            eqCaptureScan q input leftName rightName isPositive rest'
              (lastBoundNode q leftName (front ++ [c]))
              (lastBoundNode q rightName (front ++ [c])) := by
        simp only [eqCaptureScan]
        rw [← lastBoundNode_concat q leftName front c, ← lastBoundNode_concat q rightName front c]
      rw [hstep]
      by_cases hb : bothBoundIn q leftName rightName (front ++ [c]) = true
      · have hbl : boundIn q leftName (front ++ [c]) = true := by
          simp only [bothBoundIn, Bool.and_eq_true] at hb; exact hb.1
        have hbr : boundIn q rightName (front ++ [c]) = true := by
          simp only [bothBoundIn, Bool.and_eq_true] at hb; exact hb.2
        have hcond : lastBoundNode q leftName (front ++ [c]) ≠ nullNode ∧
            lastBoundNode q rightName (front ++ [c]) ≠ nullNode :=
          ⟨(lastBoundNode_ne_null_iff q leftName _ hfc).mpr hbl,
           (lastBoundNode_ne_null_iff q rightName _ hfc).mpr hbr⟩
        rw [if_pos hcond, decide_beq_true_iff]
        have hassoc : front ++ c :: rest' = (front ++ [c]) ++ rest' := by simp
        have f1 : (front ++ c :: rest').take (front.length + 1) = front ++ [c] := by
          rw [hassoc]; exact List.take_left' (by simp)
        have f2 : (front ++ c :: rest').take front.length = front :=
          List.take_left front (c :: rest')
        constructor
        · intro hP k hk hb1 hb2
          rcases Nat.lt_trichotomy k front.length with hlt | heq | hgt
          · exfalso
            have he : (front ++ c :: rest').take (k + 1) = front.take (k + 1) :=
              List.take_append_of_le_length (by omega)
            rw [he] at hb1
            exact absurd (bothBoundIn_of_take q leftName rightName front (k + 1) hb1)
              (by simp [hboth])
          · subst heq
            rw [f1]
            exact hP
          · exfalso
            have hpre : ((front ++ c :: rest').take k).take (front.length + 1) =
                (front ++ c :: rest').take (front.length + 1) := by
              rw [List.take_take]
              congr 1
              omega
            have htk : bothBoundIn q leftName rightName ((front ++ c :: rest').take k) = true := by
              apply bothBoundIn_of_take q leftName rightName _ (front.length + 1)
              rw [hpre, f1]
              exact hb
            simp [htk] at hb2
        · intro hAll
          have hk0 : front.length < (front ++ c :: rest').length := by
            simp [List.length_append]
          have h := hAll front.length hk0 (by rw [f1]; exact hb) (by rw [f2]; exact hboth)
          rw [f1] at h
          exact h
      · have hbf : bothBoundIn q leftName rightName (front ++ [c]) = false := by
          simpa using hb
        have hcond : ¬(lastBoundNode q leftName (front ++ [c]) ≠ nullNode ∧
            lastBoundNode q rightName (front ++ [c]) ≠ nullNode) := by
          intro hcc
          apply hb
          simp only [bothBoundIn, Bool.and_eq_true]
          exact ⟨(lastBoundNode_ne_null_iff q leftName _ hfc).mp hcc.1,
                 (lastBoundNode_ne_null_iff q rightName _ hfc).mp hcc.2⟩
        rw [if_neg hcond]
        have hrec := ih (front ++ [c]) hfc hrest' hbf
        rw [show (front ++ [c]) ++ rest' = front ++ c :: rest' from by simp] at hrec
        exact hrec

/-- The scan of `eq?`/`not-eq?` started from the zero accumulators, as
`FilterPredicates` starts it, characterized declaratively. -/
lemma eqCaptureScan_spec (q : Query) (input : List Nat) (leftName rightName : String)
    (isPositive : Bool) (captures : List QueryCapture)
    (hnn : ∀ c ∈ captures, c.node ≠ nullNode) :
    eqCaptureScan q input leftName rightName isPositive captures nullNode nullNode = true ↔
      ∀ k, k < captures.length →
        bothBoundIn q leftName rightName (captures.take (k + 1)) = true →
        bothBoundIn q leftName rightName (captures.take k) = false →
        ((nodeContent (lastBoundNode q leftName (captures.take (k + 1))) input =
            nodeContent (lastBoundNode q rightName (captures.take (k + 1))) input) ↔
          isPositive = true) := by
  have h := eqCaptureScan_spec_aux q input leftName rightName isPositive captures []
    (by intro c hc; cases hc) hnn (by simp [bothBoundIn, boundIn])
  have e1 : lastBoundNode q leftName [] = nullNode := rfl
  have e2 : lastBoundNode q rightName [] = nullNode := rfl
  rw [e1, e2] at h
  simpa using h

/-- C3 counterexample: two concrete matches refute the claimed `eq?`
semantics.  First, a match binding only `@a` (no capture named `b`) is
passed through with its captures intact, although the claim requires
`eq?` to fail when the two captures do not both exist.  Second, a match
binding `@a` twice (first occurrence bytes `[9,9]`, second `[3,4]`) and
`@b` once (bytes `[3,4]`) is also passed through, although the claim's
first-occurrence rule compares `[9,9]` with `[3,4]` and requires the
match to be rejected: the code compares the most recent `@a` binding at
the moment `@b` is first bound, not the first one. -/
theorem eqPredicate_claim_counterexample :
    (filterPredicates (totalCompile (fun _ _ => true))
        ⟨["a", "b"], ["eq?"],
          [[[⟨StepType.string, 0⟩, ⟨StepType.capture, 0⟩, ⟨StepType.capture, 1⟩,
             ⟨StepType.done, 0⟩]]]⟩
        ⟨5, 0, [⟨0, ⟨1, 0, 2⟩⟩]⟩ [9, 9] = Except.ok ⟨5, 0, [⟨0, ⟨1, 0, 2⟩⟩]⟩ ∧
      boundIn
        ⟨["a", "b"], ["eq?"],
          [[[⟨StepType.string, 0⟩, ⟨StepType.capture, 0⟩, ⟨StepType.capture, 1⟩,
             ⟨StepType.done, 0⟩]]]⟩ "b" [⟨0, ⟨1, 0, 2⟩⟩] = false) ∧
    (filterPredicates (totalCompile (fun _ _ => true))
        ⟨["a", "b"], ["eq?"],
          [[[⟨StepType.string, 0⟩, ⟨StepType.capture, 0⟩, ⟨StepType.capture, 1⟩,
             ⟨StepType.done, 0⟩]]]⟩
        ⟨6, 0, [⟨0, ⟨1, 0, 2⟩⟩, ⟨0, ⟨2, 2, 4⟩⟩, ⟨1, ⟨3, 4, 6⟩⟩]⟩ [9, 9, 3, 4, 3, 4] =
        Except.ok ⟨6, 0, [⟨0, ⟨1, 0, 2⟩⟩, ⟨0, ⟨2, 2, 4⟩⟩, ⟨1, ⟨3, 4, 6⟩⟩]⟩ ∧
      (List.filter
          (fun (c : QueryCapture) =>
            Query.captureNameForId
              ⟨["a", "b"], ["eq?"],
                [[[⟨StepType.string, 0⟩, ⟨StepType.capture, 0⟩, ⟨StepType.capture, 1⟩,
                   ⟨StepType.done, 0⟩]]]⟩ c.index = "a")
          [⟨0, ⟨1, 0, 2⟩⟩, ⟨0, ⟨2, 2, 4⟩⟩, ⟨1, ⟨3, 4, 6⟩⟩]).head? = some ⟨0, ⟨1, 0, 2⟩⟩ ∧
      (List.filter
          (fun (c : QueryCapture) =>
            Query.captureNameForId
              ⟨["a", "b"], ["eq?"],
                [[[⟨StepType.string, 0⟩, ⟨StepType.capture, 0⟩, ⟨StepType.capture, 1⟩,
                   ⟨StepType.done, 0⟩]]]⟩ c.index = "b")
          [⟨0, ⟨1, 0, 2⟩⟩, ⟨0, ⟨2, 2, 4⟩⟩, ⟨1, ⟨3, 4, 6⟩⟩]).head? = some ⟨1, ⟨3, 4, 6⟩⟩ ∧
      nodeContent ⟨1, 0, 2⟩ [9, 9, 3, 4, 3, 4] ≠ nodeContent ⟨3, 4, 6⟩ [9, 9, 3, 4, 3, 4]) := by
  exact ⟨⟨by rfl, by decide⟩, by rfl, by decide, by decide, by decide⟩

/-- C3 amended: for an `eq?`/`not-eq? @a @b` invocation, the invocation
passes iff, at the first index in match order at which both capture names
have been bound to (non-null) nodes, the byte contents of the currently
bound nodes — each name's binding being its most recent occurrence up to
that index — are equal (for `eq?`; unequal for `not-eq?`); when the two
names are never both bound in the match, the invocation passes
vacuously. -/
theorem eqPredicate_amended (q : Query) (compileRegex : String → Option (List Nat → Bool))
    (input : List Nat) (captures : List QueryCapture) (i0 i1 i2 i3 : Nat)
    (hop : q.stringValueForId i0 = "eq?" ∨ q.stringValueForId i0 = "not-eq?")
    (hnn : ∀ c ∈ captures, c.node ≠ nullNode) :
    evalPredicate compileRegex q input captures
        [⟨StepType.string, i0⟩, ⟨StepType.capture, i1⟩, ⟨StepType.capture, i2⟩,
         ⟨StepType.done, i3⟩] = Except.ok true ↔
      ∀ k, k < captures.length →
        bothBoundIn q (q.captureNameForId i1) (q.captureNameForId i2)
          (captures.take (k + 1)) = true →
        bothBoundIn q (q.captureNameForId i1) (q.captureNameForId i2)
          (captures.take k) = false →
        ((nodeContent (lastBoundNode q (q.captureNameForId i1) (captures.take (k + 1))) input =
            nodeContent (lastBoundNode q (q.captureNameForId i2) (captures.take (k + 1))) input) ↔
          q.stringValueForId i0 = "eq?") := by
  rcases hop with h1 | h1
  · have hred : evalPredicate compileRegex q input captures
          [⟨StepType.string, i0⟩, ⟨StepType.capture, i1⟩, ⟨StepType.capture, i2⟩,
           ⟨StepType.done, i3⟩] =
        Except.ok (eqCaptureScan q input (q.captureNameForId i1) (q.captureNameForId i2) true
          captures nullNode nullNode) := by
      simp [evalPredicate, h1]
    rw [hred, Except.ok.injEq,
      eqCaptureScan_spec q input (q.captureNameForId i1) (q.captureNameForId i2) true
        captures hnn]
    simp [h1]
  · have hred : evalPredicate compileRegex q input captures
          [⟨StepType.string, i0⟩, ⟨StepType.capture, i1⟩, ⟨StepType.capture, i2⟩,
           ⟨StepType.done, i3⟩] =
        Except.ok (eqCaptureScan q input (q.captureNameForId i1) (q.captureNameForId i2) false
          captures nullNode nullNode) := by
      simp [evalPredicate, h1]
    rw [hred, Except.ok.injEq,
      eqCaptureScan_spec q input (q.captureNameForId i1) (q.captureNameForId i2) false
        captures hnn]
    simp [h1]

/-- C3 amended witness: with `@a` bound to bytes `[3,4]` at index 0 and
`@b` bound to bytes `[3,4]` at index 1, the `eq?` invocation passes. -/
theorem eqPredicate_amended_witness :
    evalPredicate (totalCompile (fun _ _ => true)) ⟨["a", "b"], ["eq?"], []⟩ [3, 4, 3, 4]
        [⟨0, ⟨1, 0, 2⟩⟩, ⟨1, ⟨2, 2, 4⟩⟩]
        [⟨StepType.string, 0⟩, ⟨StepType.capture, 0⟩, ⟨StepType.capture, 1⟩,
         ⟨StepType.done, 0⟩] = Except.ok true := by
  exact (eqPredicate_amended ⟨["a", "b"], ["eq?"], []⟩ (totalCompile (fun _ _ => true))
    [3, 4, 3, 4] [⟨0, ⟨1, 0, 2⟩⟩, ⟨1, ⟨2, 2, 4⟩⟩] 0 0 1 0 (Or.inl rfl) (by decide)).mpr
    (by decide)

end TreeSitter
